import Mathlib

/-
Verification of the Pleco chess engine core against its specification.

Shallow embedding of:
  * pleco/src/board/piece_locations.rs   (PieceLocations and FEN rank parsing)
  * pleco/src/bots/alphabeta.rs          (reference alpha-beta searcher)
  * pleco_engine/src/search/mod.rs       (engine negamax prelude, move loop
                                          skeleton, best-thread reconciliation)

Machine integers are modelled as Nat / Int; the values involved (square
bytes 0..255, centipawn scores, depths below 126) never approach the
u8 / i32 / u16 bounds on the paths the theorems cover, so no wrap-around
modelling is needed.
-/

namespace Pleco

/-! ## Players and piece types (pleco core types, used by piece_locations.rs) -/

inductive Player where
  | White
  | Black
deriving DecidableEq, Repr

inductive PieceType where
  | P
  | N
  | B
  | R
  | Q
  | K
deriving DecidableEq, Repr

/-- Result of a query function that contains an `unreachable!()` branch in the
source: `ok v` is a normal return and `undef` marks that the Rust code would
have hit `unreachable!()`. -/
inductive QueryResult (α : Type) where
  | ok (v : Option α)
  | undef
deriving DecidableEq, Repr

def QueryResult.isUndef {α : Type} : QueryResult α → Bool
  | QueryResult.ok _ => false
  | QueryResult.undef => true

/-! ## PieceLocations (pleco/src/board/piece_locations.rs)

The source stores `data: [u8; 64]`; we model the array as a function from
`Fin 64` to the stored byte. -/

structure PieceLocations where
  data : Fin 64 → Nat

/-- `PieceLocations::blank`: every square holds the empty byte `0b0111`. -/
def PieceLocations.blank : PieceLocations :=
  { data := fun _ => 7 }

/-- `PieceLocations::create_sq`: bits 0-2 encode the piece, bit 3 the color. -/
def create_sq (player : Player) (piece : PieceType) : Nat :=
  let loc : Nat :=
    match piece with
    | PieceType.P => 0
    | PieceType.N => 1
    | PieceType.B => 2
    | PieceType.R => 3
    | PieceType.Q => 4
    | PieceType.K => 5
  if player = Player.Black then loc ||| 8 else loc

/-- `PieceLocations::place`: write the encoded byte at `square`.  The source
asserts `square.is_okay()`; the `Fin 64` index makes that assertion hold by
construction. -/
def PieceLocations.place (l : PieceLocations) (square : Fin 64)
    (player : Player) (piece : PieceType) : PieceLocations :=
  { data := Function.update l.data square (create_sq player piece) }

/-- `PieceLocations::remove`: write the empty byte `0b0111` at `square`. -/
def PieceLocations.remove (l : PieceLocations) (square : Fin 64) : PieceLocations :=
  { data := Function.update l.data square 7 }

/-- `PieceLocations::piece_at`: mask the byte with `0b0111` and decode; the
`0b0110` arm is `unreachable!()` in the source, as is the catch-all arm. -/
def PieceLocations.piece_at (l : PieceLocations) (square : Fin 64) :
    QueryResult PieceType :=
  match l.data square &&& 7 with
  | 0 => QueryResult.ok (some PieceType.P)
  | 1 => QueryResult.ok (some PieceType.N)
  | 2 => QueryResult.ok (some PieceType.B)
  | 3 => QueryResult.ok (some PieceType.R)
  | 4 => QueryResult.ok (some PieceType.Q)
  | 5 => QueryResult.ok (some PieceType.K)
  | 6 => QueryResult.undef
  | 7 => QueryResult.ok none
  | _ => QueryResult.undef

/-- `PieceLocations::player_at`: `0b0111` and `0b1111` are both empty,
otherwise bit 3 selects the player. -/
def PieceLocations.player_at (l : PieceLocations) (square : Fin 64) :
    Option Player :=
  let byte := l.data square
  if byte = 7 ∨ byte = 15 then none
  else if byte < 8 then some Player.White
  else some Player.Black

/-- `PieceLocations::player_piece_at`: full decode of the byte; `0b0110`,
`0b1110` and every byte above 15 hit `unreachable!()` in the source. -/
def PieceLocations.player_piece_at (l : PieceLocations) (square : Fin 64) :
    QueryResult (Player × PieceType) :=
  match l.data square with
  | 0 => QueryResult.ok (some (Player.White, PieceType.P))
  | 1 => QueryResult.ok (some (Player.White, PieceType.N))
  | 2 => QueryResult.ok (some (Player.White, PieceType.B))
  | 3 => QueryResult.ok (some (Player.White, PieceType.R))
  | 4 => QueryResult.ok (some (Player.White, PieceType.Q))
  | 5 => QueryResult.ok (some (Player.White, PieceType.K))
  | 6 => QueryResult.undef
  | 7 => QueryResult.ok none
  | 8 => QueryResult.ok (some (Player.Black, PieceType.P))
  | 9 => QueryResult.ok (some (Player.Black, PieceType.N))
  | 10 => QueryResult.ok (some (Player.Black, PieceType.B))
  | 11 => QueryResult.ok (some (Player.Black, PieceType.R))
  | 12 => QueryResult.ok (some (Player.Black, PieceType.Q))
  | 13 => QueryResult.ok (some (Player.Black, PieceType.K))
  | 14 => QueryResult.undef
  | 15 => QueryResult.ok none
  | _ => QueryResult.undef

/-- `PieceLocations::at_square`: occupied iff the byte is neither empty
encoding. -/
def PieceLocations.at_square (l : PieceLocations) (square : Fin 64) : Bool :=
  let byte := l.data square
  decide (byte ≠ 7 ∧ byte ≠ 15)

/-- `PartialEq for PieceLocations`: compare the raw bytes of all 64 squares. -/
def PieceLocations.eqb (l r : PieceLocations) : Bool :=
  (List.finRange 64).all fun sq => l.data sq == r.data sq

/-- States reachable from `blank()` by `place` / `remove` calls. -/
inductive Reachable : PieceLocations → Prop where
  | blank : Reachable PieceLocations.blank
  | place {l : PieceLocations} (sq : Fin 64) (pl : Player) (pc : PieceType) :
      Reachable l → Reachable (l.place sq pl pc)
  | remove {l : PieceLocations} (sq : Fin 64) :
      Reachable l → Reachable (l.remove sq)

/-! ## FEN rank parsing (PieceLocations::from_partial_fen)

`FenBuildError` lives in pleco/src/board/mod.rs, outside the extracted
sources; only the three variants used by `from_partial_fen` are modelled
here, and the `square` field carries the raw square index instead of the
`SQ::to_string()` rendering (the string rendering is external code). -/

inductive FenBuildError where
  | SquareSmallerRank (rank : Nat) (square : Nat)
  | SquareLargerRank (rank : Nat) (square : Nat)
  | UnrecognizedPiece (piece : Char)
deriving DecidableEq, Repr

/-- `ch.to_digit(10)` from the source: a value only for ASCII `0`-`9`. -/
def toDigit10 (c : Char) : Option Nat :=
  if c.isDigit then some (c.toNat - 48) else none

/-- The piece-letter match arm of `from_partial_fen`. -/
def pieceCharToType : Char → Option PieceType
  | 'p' => some PieceType.P
  | 'P' => some PieceType.P
  | 'n' => some PieceType.N
  | 'N' => some PieceType.N
  | 'b' => some PieceType.B
  | 'B' => some PieceType.B
  | 'r' => some PieceType.R
  | 'R' => some PieceType.R
  | 'q' => some PieceType.Q
  | 'Q' => some PieceType.Q
  | 'k' => some PieceType.K
  | 'K' => some PieceType.K
  | _ => none

/-- The `piece_cnt` accumulator `[[u8; PIECE_TYPE_CNT]; PLAYER_CNT]`. -/
def PieceCounts : Type := Player → PieceType → Nat

def incCount (cnt : PieceCounts) (pl : Player) (pc : PieceType) : PieceCounts :=
  fun p q => if p = pl ∧ q = pc then cnt p q + 1 else cnt p q

/-- Inner character loop of `from_partial_fen` for one rank.  `i` is the rank
index, `min_sq`/`max_sq` the rank's square range and `idx` the running square
index.  `SQ(idx as u8)` in the `place` call is modelled as `idx % 64`: the
`idx > max_sq` guard has already ensured `idx ≤ max_sq ≤ 63` on every path
that reaches `place`, where the two coincide. -/
def processRank (i min_sq max_sq : Nat) :
    List Char → Nat → PieceLocations → PieceCounts →
    Except FenBuildError (PieceLocations × PieceCounts × Nat)
  | [], idx, loc, cnt => Except.ok (loc, cnt, idx)
  | ch :: rest, idx, loc, cnt =>
    if idx < min_sq then Except.error (FenBuildError.SquareSmallerRank i idx)
    else if idx > max_sq then Except.error (FenBuildError.SquareLargerRank i idx)
    else
      match toDigit10 ch with
      | some digit => processRank i min_sq max_sq rest (idx + digit) loc cnt
      | none =>
        match pieceCharToType ch with
        | none => Except.error (FenBuildError.UnrecognizedPiece ch)
        | some piece =>
          let player := if ch.isLower then Player.Black else Player.White
          processRank i min_sq max_sq rest (idx + 1)
            (loc.place ⟨idx % 64, Nat.mod_lt idx (by decide)⟩ player piece)
            (incCount cnt player piece)

/-- Outer rank loop of `from_partial_fen`.  In the source `min_sq` is
`(7 - i) * 8` in `usize` arithmetic; `Nat` subtraction matches it for the
rank counts (≤ 8) a split FEN can produce. -/
def from_partial_fen_go :
    List (List Char) → Nat → PieceLocations → PieceCounts →
    Except FenBuildError (PieceLocations × PieceCounts)
  | [], _, loc, cnt => Except.ok (loc, cnt)
  | r :: rest, i, loc, cnt =>
    let min_sq := (7 - i) * 8
    let max_sq := min_sq + 7
    match processRank i min_sq max_sq r min_sq loc cnt with
    | Except.error e => Except.error e
    | Except.ok (loc2, cnt2, _) => from_partial_fen_go rest (i + 1) loc2 cnt2

/-- `PieceLocations::from_partial_fen`. -/
def from_partial_fen (ranks : List (List Char)) :
    Except FenBuildError (PieceLocations × PieceCounts) :=
  from_partial_fen_go ranks 0 PieceLocations.blank (fun _ _ => 0)

/-! ## Score constants (pleco/src/core/score.rs, external to the extracted
sources).

Modelled from the spec: `DRAW` is 0 (spec step E), mate scores follow the
`MATE − ply` convention and `NEG_INFINITE`/`INFINITE` bound every score; the
exact numeric values are not in the extracted sources, so representative
values are fixed here.  Every claim below is stated relative to these
constants, never to their numerals. -/

def DRAW : Int := 0

def MATE : Int := -25000

def NEG_INFINITE : Int := -32001

def INFINITE : Int := 32001

/-! ## Reference alpha-beta searcher (pleco/src/bots/alphabeta.rs)

The board is abstracted as a finite game tree: a node carries the values the
searcher queries of the external `Board` (`in_check`, `eval_board`) and its
list of legal moves, each leading to a child position.  `board.depth()` is
threaded as an explicit argument, incremented by `apply_move` and restored by
`undo_move`. -/

inductive GTree where
  | node (inCheck : Bool) (eval : Int) (children : List GTree)
deriving Repr

/-- `BestMove` from pleco/src/bots/mod.rs (external to the extracted sources).
Modelled from the spec: a move option plus a score, where `negate` flips the
score and `new_none` builds a move-less result.  Moves are identified by
their index in the move list. -/
structure BestMove where
  best_move : Option Nat
  score : Int
deriving DecidableEq, Repr

def BestMove.negate (b : BestMove) : BestMove :=
  { b with score := -b.score }

def BestMove.new_none (s : Int) : BestMove :=
  { best_move := none, score := s }

mutual

/-- `alpha_beta_search` from alphabeta.rs. -/
def alpha_beta_search : GTree → Nat → Int → Int → Nat → BestMove
  | GTree.node inCheck ev children, depth, alpha, beta, max_depth =>
    if depth = max_depth then { best_move := none, score := ev }
    else
      match children with
      | [] =>
        if inCheck then BestMove.new_none (MATE + (depth : Int))
        else BestMove.new_none DRAW
      | c :: cs => abLoop (c :: cs) 0 depth alpha beta max_depth none

/-- The `for mov in moves` loop of `alpha_beta_search`, with the running
`alpha` and `best_move` threaded through. -/
def abLoop : List GTree → Nat → Nat → Int → Int → Nat → Option Nat → BestMove
  | [], _, _, alpha, _, _, best => { best_move := best, score := alpha }
  | c :: rest, i, depth, alpha, beta, max_depth, best =>
    let ret := (alpha_beta_search c (depth + 1) (-beta) (-alpha) max_depth).negate
    let alpha2 := if ret.score > alpha then ret.score else alpha
    let best2 := if ret.score > alpha then some i else best
    if alpha2 ≥ beta then { best_move := some i, score := alpha2 }
    else abLoop rest (i + 1) depth alpha2 beta max_depth best2

end

/-! ## Engine search (pleco_engine/src/search/mod.rs)

The entry sequence of `Searcher::search` (everything before the move loop),
the move-loop skeleton and the post-loop handling are embedded as pure
functions of the values the searcher reads from its environment: the TT
probe result, the check flag, the static evaluation of the current board,
the stop flag (after `check_time`) and the generated move list. -/

/-- `NodeBound` from pleco/src/tools/tt.rs (external to the extracted
sources).  Modelled from the spec: a 2-bit enum with
`Exact = LowerBound | UpperBound`, so the bit patterns are 0, 1, 2, 3. -/
inductive NodeBound where
  | NoBound
  | LowerBound
  | UpperBound
  | Exact
deriving DecidableEq, Repr

/-- The `as u8` value of a `NodeBound`. -/
def NodeBound.bits : NodeBound → Nat
  | NodeBound.NoBound => 0
  | NodeBound.LowerBound => 1
  | NodeBound.UpperBound => 2
  | NodeBound.Exact => 3

/-- `correct_bound_eq` from search/mod.rs. -/
def correct_bound_eq (tt_value beta : Int) (bound : NodeBound) : Bool :=
  if tt_value ≥ beta then decide (bound.bits &&& NodeBound.LowerBound.bits ≠ 0)
  else decide (bound.bits &&& NodeBound.UpperBound.bits ≠ 0)

/-- `correct_bound` from search/mod.rs. -/
def correct_bound (tt_value val : Int) (bound : NodeBound) : Bool :=
  if tt_value > val then decide (bound.bits &&& NodeBound.LowerBound.bits ≠ 0)
  else decide (bound.bits &&& NodeBound.UpperBound.bits ≠ 0)

/-- `futility_margin` from search/mod.rs. -/
def futility_margin (depth : Nat) : Int := (depth : Int) * 150

/-- The fields of a TT `Entry` read or written by `Searcher::search`.  The
entry layout lives in pleco/src/tools/tt.rs (external); the `key`,
`best_move` and generation fields are not consulted by any claim and are
omitted. -/
structure TTEntryM where
  score : Int
  eval : Int
  depth : Nat
  node_type : NodeBound
deriving DecidableEq, Repr

/-- One generated move, abstracted to the data the loop skeleton consults:
an identifier and the `board.legal_move(mov)` verdict. -/
structure MoveEntry where
  id : Nat
  legal : Bool
deriving DecidableEq, Repr

/-- The environment of one `Searcher::search` invocation: everything the
entry sequence reads.  `ply` is `board.depth()` at entry (so `at_root`
is `ply = 0`), `stop` is the stop flag as observed after `check_time`,
`static_eval` is the value `self.eval()` returns on this board, and
`moves` is the generated move list (root projection or pseudolegal). -/
structure SearchInput where
  is_pv : Bool
  alpha : Int
  beta : Int
  max_depth : Nat
  ply : Nat
  stop : Bool
  tt_hit : Bool
  tt_entry : TTEntryM
  in_check : Bool
  static_eval : Int
  moves : List MoveEntry
deriving DecidableEq, Repr

/-- `let tt_value = if tt_hit { tt_entry.score as i32 } else { 0 };` -/
def tt_value_of (inp : SearchInput) : Int :=
  if inp.tt_hit then inp.tt_entry.score else 0

/-- Step C of `Searcher::search`: the static-evaluation block.  Returns the
resulting `pos_eval` together with the entry written into the TT slot on the
no-hit path (`none` when nothing is stored).  `pos_eval` enters the block
still holding its initializer `0`. -/
def stepC (inp : SearchInput) : Int × Option TTEntryM :=
  let pos_eval : Int := 0
  if inp.in_check then (0, none)
  else if inp.tt_hit then
    let pe1 := if inp.tt_entry.eval = 0 then inp.static_eval else pos_eval
    let pe2 :=
      if tt_value_of inp ≠ 0 ∧ correct_bound (tt_value_of inp) pe1 inp.tt_entry.node_type = true
      then tt_value_of inp else pe1
    (pe2, none)
  else
    (inp.static_eval,
     some { score := 0, eval := inp.static_eval, depth := 0, node_type := NodeBound.NoBound })

/-- Where the entry sequence of `Searcher::search` ends: one of the early
`return` statements, or `cont` when control reaches the move loop.  The
`Option TTEntryM` component carries the TT store performed by step C on the
no-hit path, which has already happened by the time the futility / empty-list
returns fire. -/
inductive PreludeExit where
  | retEval (v : Int)
  | retAlpha (v : Int)
  | retTT (v : Int)
  | retFutility (v : Int) (store : Option TTEntryM)
  | retNoMoves (v : Int) (store : Option TTEntryM)
  | cont (pos_eval : Int) (store : Option TTEntryM)
deriving DecidableEq, Repr

def PreludeExit.isTTCut : PreludeExit → Bool
  | PreludeExit.retTT _ => true
  | _ => false

/-- The entry sequence of `Searcher::search`, transcribed in program order:
the leaf/stop return, the `alpha >= beta` return at non-root, the TT-cutoff
guard (note its `pos_eval != 0` conjunct, read while `pos_eval` still holds
its initializer `0`), step C, the futility return and the empty-move-list
return. -/
def searchPrelude (inp : SearchInput) : PreludeExit :=
  let pos_eval : Int := 0
  if inp.ply ≥ inp.max_depth ∨ inp.stop = true then
    PreludeExit.retEval inp.static_eval
  else if ¬(inp.ply = 0) ∧ inp.alpha ≥ inp.beta then
    PreludeExit.retAlpha inp.alpha
  else if ¬(inp.is_pv = true) ∧ inp.tt_hit = true
      ∧ inp.tt_entry.depth ≥ inp.max_depth - inp.ply
      ∧ inp.tt_entry.eval ≠ 0 ∧ tt_value_of inp ≠ 0 ∧ pos_eval ≠ 0
      ∧ correct_bound_eq (tt_value_of inp) inp.beta inp.tt_entry.node_type = true then
    PreludeExit.retTT (tt_value_of inp)
  else
    let pe := stepC inp
    if ¬(inp.in_check = true) ∧ 3 < inp.ply ∧ inp.ply < 7
        ∧ pe.1 - futility_margin inp.ply ≥ inp.beta ∧ pe.1 < 10000 then
      PreludeExit.retFutility pe.1 pe.2
    else if inp.moves = [] then
      PreludeExit.retNoMoves (if inp.in_check then MATE - (inp.ply : Int) else DRAW) pe.2
    else
      PreludeExit.cont pe.1 pe.2

/-- The loop-local state of the move loop of `Searcher::search`. -/
structure LoopState where
  moves_played : Nat
  alpha : Int
  best_value : Int
  best_move : Option Nat
deriving DecidableEq, Repr

/-- What one execution of the move-loop body can do: return from `search`
(the stop check), `break` out of the loop (beta cutoff), or continue with an
updated state. -/
inductive BodyOutcome where
  | ret (v : Int)
  | brk (st : LoopState)
  | next (st : LoopState)

/-- The move-loop skeleton of `Searcher::search`: each move is processed only
when `at_root || board.legal_move(mov)`; the body itself (recursive searches,
root-move updates) is an arbitrary function, so every theorem about the
skeleton holds for the real body. -/
def moveLoop (at_root : Bool) (body : LoopState → Nat → MoveEntry → BodyOutcome) :
    List MoveEntry → Nat → LoopState → LoopState ⊕ Int
  | [], _, st => Sum.inl st
  | m :: ms, i, st =>
    if at_root = true ∨ m.legal = true then
      match body st i m with
      | BodyOutcome.ret v => Sum.inr v
      | BodyOutcome.brk st2 => Sum.inl st2
      | BodyOutcome.next st2 => moveLoop at_root body ms (i + 1) st2
    else moveLoop at_root body ms (i + 1) st

/-- The code after the move loop: the `moves_played == 0` mate/draw return,
otherwise the bound computation and the TT store of the node result. -/
def postLoop (is_pv in_check : Bool) (ply : Nat) (beta pos_eval : Int)
    (plys_to_zero : Nat) (st : LoopState) : Int × Option TTEntryM :=
  if st.moves_played = 0 then
    (if in_check then MATE - (ply : Int) else DRAW, none)
  else
    let node_bound :=
      if st.best_value ≥ beta then NodeBound.LowerBound
      else if is_pv = true ∧ st.best_move.isSome = true then NodeBound.Exact
      else NodeBound.UpperBound
    (st.best_value,
     some { score := st.best_value, eval := pos_eval, depth := plys_to_zero,
            node_type := node_bound })

/-- One invocation of `Searcher::search` assembled from the pieces above,
with the loop body abstract.  Returns the value the call returns. -/
def searchSkeleton (inp : SearchInput)
    (body : LoopState → Nat → MoveEntry → BodyOutcome) : Int :=
  match searchPrelude inp with
  | PreludeExit.retEval v => v
  | PreludeExit.retAlpha v => v
  | PreludeExit.retTT v => v
  | PreludeExit.retFutility v _ => v
  | PreludeExit.retNoMoves v _ => v
  | PreludeExit.cont pe _ =>
    match moveLoop (decide (inp.ply = 0)) body inp.moves 0
        { moves_played := 0, alpha := inp.alpha, best_value := NEG_INFINITE,
          best_move := none } with
    | Sum.inr v => v
    | Sum.inl st =>
      (postLoop inp.is_pv inp.in_check inp.ply inp.beta pe
        (inp.max_depth - inp.ply) st).1

/-! ## Best-thread reconciliation (Searcher::main_thread_go)

Each `Searcher` is abstracted to the three values the reconciliation reads:
`depth_completed` and its first root move with its score. -/

structure ThreadInfo where
  depth_completed : Nat
  first_score : Int
  first_move : Nat
deriving DecidableEq, Repr

/-- The body of the `for_each` over `threadpool().threads`: replace the
current best thread when `score_diff > 0 && depth_diff >= 0`, computed with
the source's `i32` differences. -/
def better_step (best th : ThreadInfo) : ThreadInfo :=
  let depth_diff : Int := (th.depth_completed : Int) - (best.depth_completed : Int)
  let score_diff : Int := th.first_score - best.first_score
  if score_diff > 0 ∧ depth_diff ≥ 0 then th else best

/-- The best-move selection of `main_thread_go`: the fold over all threads
runs only under a `Depth` limit; otherwise the main thread's own first root
move and score are emitted.  Returns `(best_move, best_score)`. -/
def reconcile_best (limit_is_depth : Bool) (main : ThreadInfo)
    (threads : List ThreadInfo) : Nat × Int :=
  let best_move := main.first_move
  let best_score := main.first_score
  if limit_is_depth = true then
    let bt := List.foldl better_step main threads
    (bt.first_move, bt.first_score)
  else
    (best_move, best_score)

/-- A PieceLocations holding the alternate empty byte 0b1111 on square 0 and
the canonical empty byte elsewhere. -/
def altEmpty : PieceLocations :=
  { data := fun sq => if sq = 0 then 15 else 7 }

/-- A non-PV, non-root node on which every condition of the claimed TT
cutoff holds: probe hit, entry depth 5 ≥ plys_to_zero 1, and tt_value 50 ≥
beta 1 with a LowerBound entry. -/
def c1Input : SearchInput :=
  { is_pv := false, alpha := 0, beta := 1, max_depth := 2, ply := 1,
    stop := false, tt_hit := true,
    tt_entry := { score := 50, eval := 30, depth := 5,
                  node_type := NodeBound.LowerBound },
    in_check := false, static_eval := 7, moves := [{ id := 0, legal := true }] }

/-- A node that is not in check, with a TT hit whose cached eval is 30 and
whose stored score (hence tt_value) is 0. -/
def c2Input : SearchInput :=
  { is_pv := true, alpha := 0, beta := 1, max_depth := 2, ply := 1,
    stop := false, tt_hit := true,
    tt_entry := { score := 0, eval := 30, depth := 0,
                  node_type := NodeBound.NoBound },
    in_check := false, static_eval := 7, moves := [{ id := 0, legal := true }] }

/-- A non-root node in check whose single pseudolegal move is illegal. -/
def c4Input : SearchInput :=
  { is_pv := true, alpha := 0, beta := 1, max_depth := 2, ply := 1,
    stop := false, tt_hit := false,
    tt_entry := { score := 0, eval := 0, depth := 0,
                  node_type := NodeBound.NoBound },
    in_check := true, static_eval := 7, moves := [{ id := 0, legal := false }] }

/-- A node where every futility condition holds: ply 4, not in check,
no TT hit so pos_eval is the static evaluation 700, and 700 − 600 ≥ beta. -/
def c5Input : SearchInput :=
  { is_pv := true, alpha := 0, beta := 1, max_depth := 10, ply := 4,
    stop := false, tt_hit := false,
    tt_entry := { score := 0, eval := 0, depth := 0,
                  node_type := NodeBound.NoBound },
    in_check := false, static_eval := 700, moves := [{ id := 0, legal := true }] }

/-! ## Theorems -/

/-- C7: placing a piece then querying the same square returns exactly that
(player, piece); after removing a square, piece_at, player_at and
player_piece_at all report empty; and both byte encodings 0b0111 and 0b1111
are read back as empty by the query functions. -/
theorem c7_place_remove_roundtrip :
    (∀ (l : PieceLocations) (sq : Fin 64) (pl : Player) (pc : PieceType),
        (l.place sq pl pc).player_piece_at sq = QueryResult.ok (some (pl, pc)))
    ∧ (∀ (l : PieceLocations) (sq : Fin 64),
        (l.remove sq).piece_at sq = QueryResult.ok none
        ∧ (l.remove sq).player_at sq = none
        ∧ (l.remove sq).player_piece_at sq = QueryResult.ok none)
    ∧ (∀ (l : PieceLocations) (sq : Fin 64), l.data sq = 7 ∨ l.data sq = 15 →
        l.piece_at sq = QueryResult.ok none
        ∧ l.player_at sq = none
        ∧ l.player_piece_at sq = QueryResult.ok none) := by
  refine ⟨?_, ?_, ?_⟩
  · intro l sq pl pc
    have h : (l.place sq pl pc).data sq = create_sq pl pc := by
      simp [PieceLocations.place]
    unfold PieceLocations.player_piece_at
    rw [h]
    cases pl <;> cases pc <;> rfl
  · intro l sq
    have h : (l.remove sq).data sq = 7 := by simp [PieceLocations.remove]
    refine ⟨?_, ?_, ?_⟩
    · unfold PieceLocations.piece_at
      rw [h]
    · unfold PieceLocations.player_at
      rw [h]
      decide
    · unfold PieceLocations.player_piece_at
      rw [h]
  · intro l sq h
    rcases h with h | h <;>
      exact ⟨by unfold PieceLocations.piece_at; rw [h],
        by unfold PieceLocations.player_at; rw [h]; decide,
        by unfold PieceLocations.player_piece_at; rw [h]⟩

/-- Witness for C7: blank board, square 0, a black knight. -/
theorem c7_place_remove_roundtrip_witness :
    (PieceLocations.blank.place 0 Player.Black PieceType.N).player_piece_at 0
        = QueryResult.ok (some (Player.Black, PieceType.N))
    ∧ PieceLocations.blank.piece_at 0 = QueryResult.ok none :=
  ⟨c7_place_remove_roundtrip.1 PieceLocations.blank 0 Player.Black PieceType.N,
    (c7_place_remove_roundtrip.2.2 PieceLocations.blank 0 (Or.inl rfl)).1⟩

/-- Every byte stored in a reachable PieceLocations is below 16 and its low
three bits are not 0b110: blank writes 7, place writes a create_sq value and
remove writes 7. -/
theorem reachable_byte_valid {l : PieceLocations} (h : Reachable l) (sq : Fin 64) :
    l.data sq < 16 ∧ l.data sq &&& 7 ≠ 6 := by
  induction h with
  | blank => exact ⟨show (7 : Nat) < 16 by decide, show (7 : Nat) &&& 7 ≠ 6 by decide⟩
  | @place l2 sq2 pl pc hr ih =>
    rcases eq_or_ne sq sq2 with rfl | hne
    · have h1 : (l2.place sq pl pc).data sq = create_sq pl pc := by
        simp [PieceLocations.place]
      rw [h1]
      cases pl <;> cases pc <;> exact ⟨by decide, by decide⟩
    · have h1 : (l2.place sq2 pl pc).data sq = l2.data sq := by
        simp [PieceLocations.place, Function.update_noteq hne]
      rw [h1]
      exact ih
  | @remove l2 sq2 hr ih =>
    rcases eq_or_ne sq sq2 with rfl | hne
    · have h1 : (l2.remove sq).data sq = 7 := by simp [PieceLocations.remove]
      rw [h1]
      exact ⟨by decide, by decide⟩
    · have h1 : (l2.remove sq2).data sq = l2.data sq := by
        simp [PieceLocations.remove, Function.update_noteq hne]
      rw [h1]
      exact ih

/-- A byte below 16 whose low three bits are not 0b110 decodes without
reaching an unreachable branch in either query function. -/
theorem byte_decode_total (l : PieceLocations) (sq : Fin 64) (b : Nat)
    (hd : l.data sq = b) (h16 : b < 16) (h6 : b &&& 7 ≠ 6) :
    (l.piece_at sq).isUndef = false ∧ (l.player_piece_at sq).isUndef = false := by
  unfold PieceLocations.piece_at PieceLocations.player_piece_at
  rw [hd]
  interval_cases b <;> first | exact absurd (by decide) h6 | decide

/-- C9: on every PieceLocations reachable from blank by place/remove calls,
every stored byte has low three bits different from 0b110, and piece_at and
player_piece_at never reach their unreachable branches. -/
theorem c9_queries_total_on_reachable (l : PieceLocations) (h : Reachable l)
    (sq : Fin 64) :
    ((l.data sq &&& 7 == 6) = false)
    ∧ (l.piece_at sq).isUndef = false
    ∧ (l.player_piece_at sq).isUndef = false := by
  obtain ⟨h16, h6⟩ := reachable_byte_valid h sq
  obtain ⟨hp, hpp⟩ := byte_decode_total l sq (l.data sq) rfl h16 h6
  exact ⟨beq_eq_false_iff_ne.mpr h6, hp, hpp⟩

/-- Witness for C9 at the blank board, square 0. -/
theorem c9_queries_total_on_reachable_witness :
    ((PieceLocations.blank.data 0 &&& 7 == 6) = false)
    ∧ (PieceLocations.blank.piece_at 0).isUndef = false
    ∧ (PieceLocations.blank.player_piece_at 0).isUndef = false :=
  c9_queries_total_on_reachable PieceLocations.blank Reachable.blank 0

/-- C10 counterexample: square 0 of altEmpty is already empty — both
player_piece_at and at_square report no piece — yet remove rewrites its byte
from 0b1111 to 0b0111, so the structure does change: the source PartialEq
(eqb) distinguishes the two values. -/
theorem c10_remove_on_empty_changes_structure :
    altEmpty.player_piece_at 0 = QueryResult.ok none
    ∧ altEmpty.at_square 0 = false
    ∧ PieceLocations.eqb (altEmpty.remove 0) altEmpty = false
    ∧ (altEmpty.remove 0).data 0 = 7 ∧ altEmpty.data 0 = 15 :=
  ⟨rfl, rfl, by decide, by simp [PieceLocations.remove], rfl⟩

/-- C10 amended: place and remove modify only their square; place overwrites
whatever was on the square, whichever player owned it; remove on a square
holding the canonical empty byte 0b0111 (the encoding blank and remove
themselves write) leaves the whole structure unchanged, while on the
alternate empty byte 0b1111 it rewrites the byte to 0b0111. -/
theorem c10_frame_conditions :
    (∀ (l : PieceLocations) (sq sq2 : Fin 64) (pl : Player) (pc : PieceType),
        sq2 ≠ sq →
        (l.place sq pl pc).data sq2 = l.data sq2
        ∧ (l.remove sq).data sq2 = l.data sq2)
    ∧ (∀ (l : PieceLocations) (sq : Fin 64) (pl pl2 : Player) (pc pc2 : PieceType),
        (l.place sq pl2 pc2).place sq pl pc = l.place sq pl pc)
    ∧ (∀ (l : PieceLocations) (sq : Fin 64), l.data sq = 7 → l.remove sq = l)
    ∧ (∀ (l : PieceLocations) (sq : Fin 64), l.data sq = 15 →
        (l.remove sq).data sq = 7) := by
  refine ⟨?_, ?_, ?_, ?_⟩
  · intro l sq sq2 pl pc hne
    constructor
    · simp [PieceLocations.place, Function.update_noteq hne]
    · simp [PieceLocations.remove, Function.update_noteq hne]
  · intro l sq pl pl2 pc pc2
    simp [PieceLocations.place]
  · intro l sq h
    obtain ⟨d⟩ := l
    simp only [PieceLocations.remove]
    congr 1
    rw [show (7 : Nat) = d sq from h.symm]
    exact Function.update_eq_self sq d
  · intro l sq _
    simp [PieceLocations.remove]

/-- Witness for C10 amended: blank board, squares 0 and 1. -/
theorem c10_frame_conditions_witness :
    ((PieceLocations.blank.place 1 Player.White PieceType.Q).data 0
        = PieceLocations.blank.data 0)
    ∧ PieceLocations.blank.remove 0 = PieceLocations.blank :=
  ⟨(c10_frame_conditions.1 PieceLocations.blank 1 0 Player.White PieceType.Q
      (by decide)).1,
    c10_frame_conditions.2.2.1 PieceLocations.blank 0 rfl⟩

/-- Every character of a rank that parses successfully is a decimal digit or
a piece letter. -/
theorem processRank_ok_chars {i mn mx : Nat} {chars : List Char} {idx : Nat}
    {loc : PieceLocations} {cnt : PieceCounts}
    {out : PieceLocations × PieceCounts × Nat}
    (h : processRank i mn mx chars idx loc cnt = Except.ok out) :
    ∀ ch ∈ chars,
      (toDigit10 ch).isSome = true ∨ (pieceCharToType ch).isSome = true := by
  induction chars generalizing idx loc cnt with
  | nil => intro ch hch; cases hch
  | cons c rest ih =>
    intro ch hch
    rw [processRank] at h
    split at h
    next h1 => exact Except.noConfusion h
    next h1 =>
      split at h
      next h2 => exact Except.noConfusion h
      next h2 =>
        split at h
        next d hd =>
          rcases List.mem_cons.mp hch with rfl | hm
          · exact Or.inl (by simp [hd])
          · exact ih h ch hm
        next hd =>
          split at h
          next hp => exact Except.noConfusion h
          next pt hp =>
            rcases List.mem_cons.mp hch with rfl | hm
            · exact Or.inr (by simp [hp])
            · exact ih h ch hm

/-- When the rank loop reports an unrecognized piece, the reported character
is indeed neither a digit nor a piece letter. -/
theorem processRank_unrecognized {i mn mx : Nat} {chars : List Char} {idx : Nat}
    {loc : PieceLocations} {cnt : PieceCounts} {ch : Char}
    (h : processRank i mn mx chars idx loc cnt
        = Except.error (FenBuildError.UnrecognizedPiece ch)) :
    toDigit10 ch = none ∧ pieceCharToType ch = none := by
  induction chars generalizing idx loc cnt with
  | nil => exact Except.noConfusion h
  | cons c rest ih =>
    rw [processRank] at h
    split at h
    next h1 => simp at h
    next h1 =>
      split at h
      next h2 => simp at h
      next h2 =>
        split at h
        next d hd => exact ih h
        next hd =>
          split at h
          next hp =>
            rw [Except.error.injEq, FenBuildError.UnrecognizedPiece.injEq] at h
            subst h
            exact ⟨hd, hp⟩
          next pt hp => exact ih h

/-- When the rank loop reports SquareLargerRank, the rank index is the
current one and the reported square index lies past the rank's last file. -/
theorem processRank_larger {i mn mx : Nat} {chars : List Char} {idx : Nat}
    {loc : PieceLocations} {cnt : PieceCounts} {j s : Nat}
    (h : processRank i mn mx chars idx loc cnt
        = Except.error (FenBuildError.SquareLargerRank j s)) :
    j = i ∧ mx < s := by
  induction chars generalizing idx loc cnt with
  | nil => exact Except.noConfusion h
  | cons c rest ih =>
    rw [processRank] at h
    split at h
    next h1 => simp at h
    next h1 =>
      split at h
      next h2 =>
        rw [Except.error.injEq, FenBuildError.SquareLargerRank.injEq] at h
        obtain ⟨rfl, rfl⟩ := h
        exact ⟨rfl, h2⟩
      next h2 =>
        split at h
        next d hd => exact ih h
        next hd =>
          split at h
          next hp => simp at h
          next pt hp => exact ih h

/-- Lift of processRank_ok_chars over the outer rank loop. -/
theorem go_ok_chars {ranks : List (List Char)} {i : Nat} {loc : PieceLocations}
    {cnt : PieceCounts} {out : PieceLocations × PieceCounts}
    (h : from_partial_fen_go ranks i loc cnt = Except.ok out) :
    ∀ r ∈ ranks, ∀ ch ∈ r,
      (toDigit10 ch).isSome = true ∨ (pieceCharToType ch).isSome = true := by
  induction ranks generalizing i loc cnt with
  | nil => intro r hr; cases hr
  | cons rk rest ih =>
    simp only [from_partial_fen_go] at h
    split at h
    next e heq => exact Except.noConfusion h
    next loc2 cnt2 x heq =>
      intro r hr
      rcases List.mem_cons.mp hr with rfl | hm
      · exact processRank_ok_chars heq
      · exact ih h r hm

/-- Lift of processRank_unrecognized over the outer rank loop. -/
theorem go_unrecognized {ranks : List (List Char)} {i : Nat}
    {loc : PieceLocations} {cnt : PieceCounts} {ch : Char}
    (h : from_partial_fen_go ranks i loc cnt
        = Except.error (FenBuildError.UnrecognizedPiece ch)) :
    toDigit10 ch = none ∧ pieceCharToType ch = none := by
  induction ranks generalizing i loc cnt with
  | nil => exact Except.noConfusion h
  | cons rk rest ih =>
    simp only [from_partial_fen_go] at h
    split at h
    next e heq =>
      rw [Except.error.injEq] at h
      subst h
      exact processRank_unrecognized heq
    next loc2 cnt2 x heq => exact ih h

/-- Lift of processRank_larger over the outer rank loop. -/
theorem go_larger {ranks : List (List Char)} {i : Nat} {loc : PieceLocations}
    {cnt : PieceCounts} {j s : Nat}
    (h : from_partial_fen_go ranks i loc cnt
        = Except.error (FenBuildError.SquareLargerRank j s)) :
    (7 - j) * 8 + 7 < s := by
  induction ranks generalizing i loc cnt with
  | nil => exact Except.noConfusion h
  | cons rk rest ih =>
    simp only [from_partial_fen_go] at h
    split at h
    next e heq =>
      rw [Except.error.injEq] at h
      subst h
      obtain ⟨rfl, hlt⟩ := processRank_larger heq
      exact hlt
    next loc2 cnt2 x heq => exact ih h

/-- C8: from_partial_fen never returns Ok when some rank contains a
character that is neither a decimal digit nor a piece letter; an
UnrecognizedPiece error names exactly such a character; a SquareLargerRank
error reports a square index past the rank's last file; and two concrete
inputs exercise both error cases. -/
theorem c8_from_partial_fen_errors :
    (∀ (ranks : List (List Char)) (v : PieceLocations × PieceCounts),
        from_partial_fen ranks = Except.ok v →
        ∀ r ∈ ranks, ∀ ch ∈ r,
          (toDigit10 ch).isSome = true ∨ (pieceCharToType ch).isSome = true)
    ∧ (∀ (ranks : List (List Char)) (ch : Char),
        from_partial_fen ranks = Except.error (FenBuildError.UnrecognizedPiece ch) →
        toDigit10 ch = none ∧ pieceCharToType ch = none)
    ∧ (∀ (ranks : List (List Char)) (j s : Nat),
        from_partial_fen ranks = Except.error (FenBuildError.SquareLargerRank j s) →
        (7 - j) * 8 + 7 < s)
    ∧ from_partial_fen [['x']] = Except.error (FenBuildError.UnrecognizedPiece 'x')
    ∧ from_partial_fen [['p', 'p', 'p', 'p', 'p', 'p', 'p', 'p', 'p']]
        = Except.error (FenBuildError.SquareLargerRank 0 64) := by
  refine ⟨?_, ?_, ?_, ?_, ?_⟩
  · intro ranks v h
    exact go_ok_chars h
  · intro ranks ch h
    exact go_unrecognized h
  · intro ranks j s h
    exact go_larger h
  · rfl
  · rfl

/-- Witness for C8 at the concrete bad character. -/
theorem c8_from_partial_fen_errors_witness :
    toDigit10 'x' = none ∧ pieceCharToType 'x' = none :=
  c8_from_partial_fen_errors.2.1 [['x']] 'x' rfl

/-- The move loop of alpha_beta_search never returns a score below the alpha
it entered with: alpha only grows, and every exit returns the running alpha. -/
theorem abLoop_score_ge (ms : List GTree) (i depth : Nat) (alpha beta : Int)
    (max_depth : Nat) (best : Option Nat) :
    alpha ≤ (abLoop ms i depth alpha beta max_depth best).score := by
  induction ms generalizing i alpha best with
  | nil => simp [abLoop]
  | cons c rest ih =>
    rw [abLoop]
    by_cases hgt : (alpha_beta_search c (depth + 1) (-beta) (-alpha) max_depth).negate.score > alpha
    · simp only [hgt, if_true]
      by_cases hb : (alpha_beta_search c (depth + 1) (-beta) (-alpha) max_depth).negate.score ≥ beta
      · simp only [hb, if_pos]
        exact le_of_lt hgt
      · simp only [hb, if_neg, not_false_iff]
        exact le_trans (le_of_lt hgt) (ih _ _ _)
    · simp only [hgt, if_false]
      by_cases hb : alpha ≥ beta
      · simp only [hb, if_pos]
        exact le_refl alpha
      · simp only [hb, if_neg, not_false_iff]
        exact ih _ _ _

/-- C3 counterexample: on the tree with a single move leading to a leaf of
evaluation −5, with window (10, 20) and depth 1, the only value found is 5
(the negated recursive result), yet alpha_beta_search returns the alpha
argument 10: the returned score is the clamped window bound, not the best
value actually found, so the searcher is not fail-soft. -/
theorem c3_not_fail_soft :
    (alpha_beta_search (GTree.node false 0 [GTree.node false (-5) []]) 0 10 20 1).score = 10
    ∧ ((alpha_beta_search (GTree.node false (-5) []) 1 (-20) (-10) 1).negate).score = 5 :=
  ⟨rfl, rfl⟩

/-- C3 amended: alpha_beta_search is fail-hard at interior nodes — whenever
the depth test fails and the move list is nonempty, the returned score is at
least the alpha argument, so a value below alpha found in the loop is
reported as alpha itself; a terminal node can still return a score below
alpha (concrete leaf with evaluation −7 under window (10, 20)); and the
single recursive call per move searches the child with the negated window
(−beta, −alpha) and negates the result, the score of a one-move node being
exactly max(alpha, negated child score). -/
theorem c3_fail_hard :
    (∀ (ic : Bool) (ev : Int) (c : GTree) (cs : List GTree) (d md : Nat) (a b : Int),
        d ≠ md → a ≤ (alpha_beta_search (GTree.node ic ev (c :: cs)) d a b md).score)
    ∧ (alpha_beta_search (GTree.node false (-7) []) 0 10 20 0).score = -7
    ∧ (∀ (ic : Bool) (ev : Int) (c : GTree) (d md : Nat) (a b : Int), d ≠ md →
        (alpha_beta_search (GTree.node ic ev [c]) d a b md).score
          = max a ((alpha_beta_search c (d + 1) (-b) (-a) md).negate.score)) := by
  refine ⟨?_, rfl, ?_⟩
  · intro ic ev c cs d md a b hd
    rw [alpha_beta_search]
    simp only [hd, if_false]
    exact abLoop_score_ge (c :: cs) 0 d a b md none
  · intro ic ev c d md a b hd
    rw [alpha_beta_search]
    simp only [hd, if_false]
    rw [abLoop]
    by_cases hgt : (alpha_beta_search c (d + 1) (-b) (-a) md).negate.score > a
    · simp only [hgt, if_true]
      rw [max_eq_right (le_of_lt hgt)]
      by_cases hb : (alpha_beta_search c (d + 1) (-b) (-a) md).negate.score ≥ b
      · simp [hb]
      · simp [hb, abLoop]
    · simp only [hgt, if_false]
      rw [max_eq_left (not_lt.mp hgt)]
      by_cases hb : a ≥ b
      · simp [hb]
      · simp [hb, abLoop]

/-- Witness for C3 amended: a one-move interior node under window (7, 9). -/
theorem c3_fail_hard_witness :
    7 ≤ (alpha_beta_search (GTree.node true 1 [GTree.node false 0 []]) 0 7 9 2).score :=
  c3_fail_hard.1 true 1 (GTree.node false 0 []) [] 0 2 7 9 (by decide)

/-- C1: the step-B guard of search conjoins `pos_eval != 0` while pos_eval
still holds its initializer 0, so the TT cutoff can never fire on any input;
in particular, at c1Input — where the claim's conditions (tt_hit, entry
depth at least plys_to_zero, bound compatible with tt_value ≥ beta) all
hold — the prelude does not return tt_value = 50 but falls through to the
move loop. -/
theorem c1_tt_cutoff_never_fires :
    (∀ inp : SearchInput, (searchPrelude inp).isTTCut = false)
    ∧ searchPrelude c1Input = PreludeExit.cont 50 none
    ∧ c1Input.tt_hit = true
    ∧ c1Input.tt_entry.depth ≥ c1Input.max_depth - c1Input.ply
    ∧ tt_value_of c1Input ≥ c1Input.beta
    ∧ correct_bound_eq (tt_value_of c1Input) c1Input.beta
        c1Input.tt_entry.node_type = true
    ∧ tt_value_of c1Input = 50 := by
  refine ⟨?_, by decide, by decide, by decide, by decide, by decide, by decide⟩
  intro inp
  simp only [searchPrelude]
  split
  · rfl
  · split
    · rfl
    · split
      · rename_i h3
        exact absurd rfl h3.2.2.2.2.2.1
      · split
        · rfl
        · split
          · rfl
          · rfl

/-- C2: at c2Input the claim expects pos_eval to be taken from the cached
tt_entry.eval, i.e. 30; step C of the code recomputes the evaluation only
when the cached eval is 0 and otherwise never reads the cache, leaving
pos_eval at its initializer, so it produces 0 instead. -/
theorem c2_cached_eval_never_read :
    (stepC c2Input).1 = 0
    ∧ c2Input.in_check = false
    ∧ c2Input.tt_hit = true
    ∧ c2Input.tt_entry.eval = 30
    ∧ tt_value_of c2Input = 0 := by decide

/-- The move loop skips every illegal move at a non-root node without
touching the loop state, whatever the loop body does. -/
theorem moveLoop_skips_illegal (body : LoopState → Nat → MoveEntry → BodyOutcome)
    (ms : List MoveEntry) (i : Nat) (st : LoopState)
    (h : ∀ m ∈ ms, m.legal = false) :
    moveLoop false body ms i st = Sum.inl st := by
  induction ms generalizing i with
  | nil => rfl
  | cons m rest ih =>
    rw [moveLoop]
    rw [if_neg]
    · exact ih _ (fun x hx => h x (List.mem_cons_of_mem m hx))
    · simp [h m (List.mem_cons_self m rest)]

/-- C4: whenever the empty-move-list return of search fires it yields
MATE − ply when in check and DRAW otherwise, with ply the board depth at
entry; and at a non-root node all of whose generated moves are rejected by
legal_move, the move loop (under any body) finishes with moves_played = 0
and the post-loop returns the same MATE − ply / DRAW values. -/
theorem c4_mate_draw_on_no_moves :
    (∀ (inp : SearchInput) (v : Int) (s : Option TTEntryM),
        searchPrelude inp = PreludeExit.retNoMoves v s →
        v = (if inp.in_check then MATE - (inp.ply : Int) else DRAW))
    ∧ (∀ (inp : SearchInput) (body : LoopState → Nat → MoveEntry → BodyOutcome)
        (pe : Int) (s : Option TTEntryM),
        inp.ply ≠ 0 → (∀ m ∈ inp.moves, m.legal = false) →
        searchPrelude inp = PreludeExit.cont pe s →
        searchSkeleton inp body
          = (if inp.in_check then MATE - (inp.ply : Int) else DRAW)) := by
  constructor
  · intro inp v s h
    simp only [searchPrelude] at h
    split at h
    · exact PreludeExit.noConfusion h
    · split at h
      · exact PreludeExit.noConfusion h
      · split at h
        · exact PreludeExit.noConfusion h
        · split at h
          · exact PreludeExit.noConfusion h
          · split at h
            · injection h with h1 h2
              exact h1.symm
            · exact PreludeExit.noConfusion h
  · intro inp body pe s hply hlegal hcont
    have hroot : (decide (inp.ply = 0)) = false := decide_eq_false hply
    have hloop := moveLoop_skips_illegal body inp.moves 0
      { moves_played := 0, alpha := inp.alpha, best_value := NEG_INFINITE,
        best_move := none } hlegal
    simp [searchSkeleton, hcont, hroot, hloop, postLoop]

/-- Witness for C4 at c4Input with a body that never fires. -/
theorem c4_mate_draw_on_no_moves_witness :
    searchSkeleton c4Input (fun st _ _ => BodyOutcome.next st) = MATE - 1 := by
  have h := c4_mate_draw_on_no_moves.2 c4Input (fun st _ _ => BodyOutcome.next st)
    0 none (by decide) (by decide) (by decide)
  simpa using h

/-- C5: once control reaches step D — the node is below max_depth, the stop
flag is clear and the window is open at non-root — the futility return fires
exactly when the side is not in check, 3 < ply < 7, the step-C pos_eval is
below 10000 and pos_eval − 150·ply ≥ beta, and it returns that pos_eval
before any move is generated. -/
theorem c5_futility_pruning (inp : SearchInput)
    (h1 : inp.ply < inp.max_depth) (h2 : inp.stop = false)
    (h3 : inp.ply = 0 ∨ inp.alpha < inp.beta) :
    searchPrelude inp = PreludeExit.retFutility ((stepC inp).1) ((stepC inp).2)
      ↔ (inp.in_check = false ∧ 3 < inp.ply ∧ inp.ply < 7
          ∧ (stepC inp).1 < 10000
          ∧ inp.beta ≤ (stepC inp).1 - 150 * (inp.ply : Int)) := by
  have hA : ¬(inp.ply ≥ inp.max_depth ∨ inp.stop = true) := by
    rw [h2]
    simp
    omega
  simp only [searchPrelude]
  rw [if_neg hA]
  constructor
  · intro h
    split at h
    · exact PreludeExit.noConfusion h
    · split at h
      · exact PreludeExit.noConfusion h
      · split at h
        next hfut =>
          obtain ⟨hc, hp3, hp7, hmar, h10k⟩ := hfut
          refine ⟨by simpa using hc, hp3, hp7, h10k, ?_⟩
          simp only [futility_margin] at hmar
          omega
        next hfut =>
          split at h
          · exact PreludeExit.noConfusion h
          · exact PreludeExit.noConfusion h
  · rintro ⟨hc, hp3, hp7, h10k, hmar⟩
    have hB : ¬(¬(inp.ply = 0) ∧ inp.alpha ≥ inp.beta) := by
      rcases h3 with h0 | hab
      · exact fun hcontra => hcontra.1 h0
      · exact fun hcontra => absurd hcontra.2 (not_le.mpr hab)
    have hTT : ¬(¬(inp.is_pv = true) ∧ inp.tt_hit = true
        ∧ inp.tt_entry.depth ≥ inp.max_depth - inp.ply
        ∧ inp.tt_entry.eval ≠ 0 ∧ tt_value_of inp ≠ 0 ∧ (0 : Int) ≠ 0
        ∧ correct_bound_eq (tt_value_of inp) inp.beta
            inp.tt_entry.node_type = true) :=
      fun hcontra => absurd rfl hcontra.2.2.2.2.2.1
    have hfut : ¬(inp.in_check = true) ∧ 3 < inp.ply ∧ inp.ply < 7
        ∧ (stepC inp).1 - futility_margin inp.ply ≥ inp.beta
        ∧ (stepC inp).1 < 10000 := by
      refine ⟨by simp [hc], hp3, hp7, ?_, h10k⟩
      simp only [futility_margin]
      omega
    rw [if_neg hB, if_neg hTT, if_pos hfut]

/-- Witness for C5 at c5Input. -/
theorem c5_futility_pruning_witness :
    searchPrelude c5Input
      = PreludeExit.retFutility ((stepC c5Input).1) ((stepC c5Input).2) :=
  (c5_futility_pruning c5Input (by decide) rfl (Or.inr (by decide))).mpr
    (by decide)

/-- C6: under any limit other than Depth the reconciliation emits the main
thread's own first root move and score; the per-worker replacement test of
the Depth fold holds exactly when the worker's first-move score is strictly
greater and its completed depth is not lower, so on score ties the current
best is kept; under a Depth limit the emitted pair is the fold of that test
over all threads. -/
theorem c6_best_thread_selection (main b t : ThreadInfo)
    (threads : List ThreadInfo) :
    reconcile_best false main threads = (main.first_move, main.first_score)
    ∧ better_step b t
        = (if t.first_score > b.first_score
              ∧ b.depth_completed ≤ t.depth_completed
           then t else b)
    ∧ (t.first_score = b.first_score → better_step b t = b)
    ∧ reconcile_best true main threads
        = ((List.foldl better_step main threads).first_move,
           (List.foldl better_step main threads).first_score) := by
  have hstep : better_step b t
      = (if t.first_score > b.first_score
            ∧ b.depth_completed ≤ t.depth_completed
         then t else b) := by
    simp only [better_step]
    have hiff : (t.first_score - b.first_score > 0
        ∧ (t.depth_completed : Int) - (b.depth_completed : Int) ≥ 0)
        ↔ (t.first_score > b.first_score
            ∧ b.depth_completed ≤ t.depth_completed) := by
      constructor <;> intro hx <;> exact ⟨by omega, by omega⟩
    exact if_congr hiff rfl rfl
  refine ⟨rfl, hstep, ?_, rfl⟩
  intro htie
  rw [hstep, if_neg]
  intro hcontra
  exact absurd htie (ne_of_gt hcontra.1)

/-- Witness for C6: a tie on score keeps the current best thread. -/
theorem c6_best_thread_selection_witness :
    reconcile_best false { depth_completed := 2, first_score := 5, first_move := 11 }
        [{ depth_completed := 3, first_score := 9, first_move := 12 }] = (11, 5)
    ∧ better_step { depth_completed := 4, first_score := 7, first_move := 1 }
        { depth_completed := 4, first_score := 7, first_move := 2 }
        = { depth_completed := 4, first_score := 7, first_move := 1 } := by
  have h := c6_best_thread_selection
    { depth_completed := 2, first_score := 5, first_move := 11 }
    { depth_completed := 4, first_score := 7, first_move := 1 }
    { depth_completed := 4, first_score := 7, first_move := 2 }
    [{ depth_completed := 3, first_score := 9, first_move := 12 }]
  exact ⟨h.1, h.2.2.1 rfl⟩

end Pleco
